import Mathlib

/-!
Verification of the vehicle-checklist persistence core.

The repository is a React Native app whose core is the local persistence and
list/detail synchronization logic: a key-value store holds, under the key
`vehicle_checklists`, a JSON array serving as the list-view index, and under
one key `checklist_<id>` per checklist, the full `VehicleChecklist` record.

Embedding conventions:
* The key-value store is modelled by `Store`: the field `index` is the value
  of the key `vehicle_checklists` (absent key read as the empty list, as in
  `loadChecklists`), and the field `records` is an association list mapping
  each id to the value of the key `checklist_<id>`.  The key prefix
  `checklist_` is injective in the id and distinct from `vehicle_checklists`,
  so this split is faithful.
* The clock collaborator supplies ISO-8601 timestamps and time-derived ids.
  Every `new Date().toISOString()` / `Date.now().toString()` read inside one
  synchronous block of the source returns the current clock value; it is
  passed to each operation as an explicit `now` / fresh-id argument.
* What `create` pushes into the index is the full record, while `update`
  rewrites the matching entry as a `{id, title, vehicle_info, created_at,
  updated_at}` projection; index entries are therefore the sum type
  `IndexEntry` of the two shapes.
-/

/-- Vehicle specification fields, as in the `VehicleInfo` interface of
`create-checklist.tsx` (all plain strings). -/
structure VehicleInfo where
  make : String
  model : String
  series : String
  year : String
  bodyType : String
  doors : String
  assembly : String
  licensing : String
  purchaseDate : String
  vin : String
  buildDate : String
  trimCode : String
  optionCode : String
  odometer : String
  paintColor : String
  engine : String
  transmission : String
  drive : String
  layout : String
  rimSize : String
  tyreSize : String
  weight : String
  wheelbase : String
  length : String
  height : String
  width : String
deriving DecidableEq

/-- Engine specification fields, as in the `EngineInfo` interface of
`create-checklist.tsx`. -/
structure EngineInfo where
  engineNumber : String
  engineCode : String
  description : String
  bore : String
  stroke : String
  compressionRatio : String
  power : String
  torque : String
deriving DecidableEq

/-- One completable entry of a task-like list, as in the `ChecklistItem`
interface of `checklist/[id].tsx`; `completed_at` is the optional field
`completed_at?: string`. -/
structure ChecklistItem where
  id : String
  text : String
  completed : Bool
  completed_at : Option String
deriving DecidableEq

/-- An embedded photo, as in the `Photo` interface of `checklist/[id].tsx`. -/
structure Photo where
  id : String
  base64_data : String
  description : String
  timestamp : String
deriving DecidableEq

/-- The aggregate root, as in the `VehicleChecklist` interface of
`checklist/[id].tsx`. -/
structure VehicleChecklist where
  id : String
  title : String
  vehicle_info : VehicleInfo
  engine_info : EngineInfo
  tasks : List ChecklistItem
  parts_to_install : List ChecklistItem
  maintenance : List ChecklistItem
  research_items : List ChecklistItem
  photos : List Photo
  created_at : String
  updated_at : String
deriving DecidableEq

/-- The projection written into the index by `saveChecklist` in
`checklist/[id].tsx` (`{id, title, vehicle_info, created_at, updated_at}`). -/
structure ChecklistSummary where
  id : String
  title : String
  vehicle_info : VehicleInfo
  created_at : String
  updated_at : String
deriving DecidableEq

/-- An entry of the `vehicle_checklists` JSON array.  `create-checklist.tsx`
pushes the full record, while `saveChecklist` rewrites an entry as the
summary projection, so a stored entry has one of the two shapes. -/
inductive IndexEntry where
  | full (c : VehicleChecklist)
  | summary (s : ChecklistSummary)
deriving DecidableEq

/-- The id of an index entry, the field `item.id` read by `findIndex` and
`filter` in the source. -/
def IndexEntry.entryId : IndexEntry → String
  | .full c => c.id
  | .summary s => s.id

/-- The key-value store: `index` is the value of the key `vehicle_checklists`
(absent read as `[]`), `records` maps each id to the value of the key
`checklist_<id>`. -/
structure Store where
  index : List IndexEntry
  records : List (String × VehicleChecklist)
deriving DecidableEq

/-- Model of `AsyncStorage.getItem` on the key `checklist_<k>` followed by
`JSON.parse`. -/
def getRecord (s : Store) (k : String) : Option VehicleChecklist :=
  (s.records.find? (fun p => p.1 == k)).map (fun p => p.2)

/-- Key-value update of an association list: `AsyncStorage.setItem` replaces
the value of an existing key and otherwise adds the key. -/
def setPairs (k : String) (v : VehicleChecklist) :
    List (String × VehicleChecklist) → List (String × VehicleChecklist)
  | [] => [(k, v)]
  | p :: rest => if p.1 == k then (k, v) :: rest else p :: setPairs k v rest

/-- Model of `AsyncStorage.setItem` on the key `checklist_<k>`. -/
def setRecord (s : Store) (k : String) (v : VehicleChecklist) : Store :=
  { s with records := setPairs k v s.records }

/-- The summary projection written by `saveChecklist`:
`{id: updated.id, title: updated.title, vehicle_info: updated.vehicle_info,
created_at: updated.created_at, updated_at: updated.updated_at}`. -/
def projOf (c : VehicleChecklist) : ChecklistSummary :=
  { id := c.id, title := c.title, vehicle_info := c.vehicle_info,
    created_at := c.created_at, updated_at := c.updated_at }

/-- The in-memory `updated` object of `saveChecklist`:
`{...updatedChecklist, updated_at: new Date().toISOString()}`. -/
def saveApply (c : VehicleChecklist) (now : String) : VehicleChecklist :=
  { c with updated_at := now }

/-- Model of `checklists[index] = {...}` after `checklists.findIndex(item => item.id
=== id)`: replace the first entry whose id matches, `none` when
`findIndex` returns `-1`. -/
def updateIndexEntries (id : String) (sm : ChecklistSummary) :
    List IndexEntry → Option (List IndexEntry)
  | [] => none
  | e :: rest =>
      if e.entryId == id then some (.summary sm :: rest)
      else (updateIndexEntries id sm rest).map (fun l => e :: l)

/-- Model of `saveChecklist` of `checklist/[id].tsx`: stamp `updated_at`, persist the
full record under `checklist_<id>`, and rewrite the matching index entry as
the summary projection when one exists (`if (index !== -1)`); when none
exists the index is left as it is. -/
def saveChecklist (s : Store) (id : String) (updatedChecklist : VehicleChecklist)
    (now : String) : Store :=
  let updated := saveApply updatedChecklist now
  let s1 := setRecord s id updated
  match updateIndexEntries id (projOf updated) s1.index with
  | none => s1
  | some entries => { s1 with index := entries }

/-- The form data of `create-checklist.tsx` (`FormData` interface). -/
structure FormData where
  title : String
  vehicleInfo : VehicleInfo
  engineInfo : EngineInfo
deriving DecidableEq

/-- JavaScript `a || b` on strings: the empty string is falsy. -/
def jsOrString (a b : String) : String :=
  if a = "" then b else a

/-- The default title template of `onSubmit`:
`` `${data.vehicleInfo.year} ${data.vehicleInfo.make} ${data.vehicleInfo.model}` ``. -/
def defaultTitle (vi : VehicleInfo) : String :=
  vi.year ++ " " ++ vi.make ++ " " ++ vi.model

/-- The `newChecklist` object built by `onSubmit` of `create-checklist.tsx`.
Its `vehicle_info` is `{make, model, year, ...data.vehicleInfo}`, and the
spread overwrites the three explicit fields with the same values, so the
result equals `data.vehicleInfo`. -/
def mkNewChecklist (data : FormData) (checklistId now : String) : VehicleChecklist :=
  { id := checklistId,
    title := jsOrString data.title (defaultTitle data.vehicleInfo),
    vehicle_info := data.vehicleInfo,
    engine_info := data.engineInfo,
    tasks := [],
    parts_to_install := [],
    maintenance := [],
    research_items := [],
    photos := [],
    created_at := now,
    updated_at := now }

/-- Model of `onSubmit` of `create-checklist.tsx`: push `newChecklist` onto the
`vehicle_checklists` array and persist it under `checklist_<id>`. -/
def createChecklist (s : Store) (data : FormData) (checklistId now : String) : Store :=
  let c := mkNewChecklist data checklistId now
  setRecord { s with index := s.index ++ [.full c] } checklistId c

/-- Model of `handleDeleteChecklist` of `index.tsx`: write back
`checklists.filter(item => item.id !== id)` under `vehicle_checklists`.
No other key is touched. -/
def deleteChecklist (s : Store) (id : String) : Store :=
  { s with index := s.index.filter (fun e => e.entryId != id) }

/-- The repository-level update: `loadChecklist` reads the record by id, the
screen applies a pure transformation to it, and `saveChecklist` persists the
result; `none` when the record is absent. -/
def updateChecklist (s : Store) (id : String) (mutate : VehicleChecklist → VehicleChecklist)
    (now : String) : Option Store :=
  (getRecord s id).map (fun c => saveChecklist s id (mutate c) now)

/-- JavaScript `String.prototype.trim`: strip leading and trailing
whitespace.  Written over the character list so that concrete instances
evaluate inside the kernel. -/
def jsTrim (s : String) : String :=
  String.mk (((s.data.dropWhile Char.isWhitespace).reverse.dropWhile
    Char.isWhitespace).reverse)

/-- The closed set of four task-like lists addressed by the dynamic
`checklist[section]` indexing of `checklist/[id].tsx` (`renderSection` is
invoked only with these four section names). -/
inductive ListName where
  | tasks
  | parts_to_install
  | maintenance
  | research_items
deriving DecidableEq

/-- Read `checklist[section]` for one of the four task-like lists. -/
def getSection (c : VehicleChecklist) : ListName → List ChecklistItem
  | .tasks => c.tasks
  | .parts_to_install => c.parts_to_install
  | .maintenance => c.maintenance
  | .research_items => c.research_items

/-- Write `{...checklist, [section]: items}` for one of the four task-like
lists. -/
def setSection (c : VehicleChecklist) : ListName → List ChecklistItem → VehicleChecklist
  | .tasks, l => { c with tasks := l }
  | .parts_to_install, l => { c with parts_to_install := l }
  | .maintenance, l => { c with maintenance := l }
  | .research_items, l => { c with research_items := l }

/-- Model of `addItem` of `checklist/[id].tsx`, at the checklist level: return early
when the trimmed text is empty, otherwise append the new item (fresh id,
trimmed text, `completed: false`, `completed_at` absent) to the named list
and stamp `updated_at` as `saveChecklist` does. -/
def addItemChecklist (c : VehicleChecklist) (sec : ListName) (text freshId now : String) :
    VehicleChecklist :=
  if jsTrim text = "" then c
  else
    saveApply
      (setSection c sec
        (getSection c sec ++
          [{ id := freshId, text := jsTrim text, completed := false, completed_at := none }]))
      now

/-- The replacement object of `toggleItem`: both reads of
`items[itemIndex].completed` see the original item, so the flip and the
`completed_at` conditional are driven by the old `completed` value. -/
def toggleOne (item : ChecklistItem) (now : String) : ChecklistItem :=
  { item with
    completed := !item.completed,
    completed_at := if !item.completed then some now else none }

/-- Model of `items.findIndex(item => item.id === itemId)` followed by
`items[itemIndex] = {...}`: replace the first item whose id matches, `none`
when `findIndex` returns `-1`. -/
def toggleInList (itemId now : String) : List ChecklistItem → Option (List ChecklistItem)
  | [] => none
  | item :: rest =>
      if item.id == itemId then some (toggleOne item now :: rest)
      else (toggleInList itemId now rest).map (fun l => item :: l)

/-- Model of `toggleItem` of `checklist/[id].tsx`, at the checklist level: when the
item is found, replace it and stamp `updated_at` as `saveChecklist` does;
when `findIndex` returns `-1` nothing is saved and the checklist is
unchanged. -/
def toggleItemChecklist (c : VehicleChecklist) (sec : ListName) (itemId now : String) :
    VehicleChecklist :=
  match toggleInList itemId now (getSection c sec) with
  | none => c
  | some items => saveApply (setSection c sec items) now

/-- Model of `updatePhotoDescription` of `checklist/[id].tsx`, at the checklist level:
map over `photos`, replacing the description of the photo whose id matches,
then save unconditionally (which stamps `updated_at`). -/
def updatePhotoDesc (c : VehicleChecklist) (photoId description now : String) :
    VehicleChecklist :=
  saveApply
    { c with
      photos := c.photos.map (fun p =>
        if p.id == photoId then { p with description := description } else p) }
    now

/-- A stored checklist record as read by `vehicle-info/[id].tsx`: the nested
vehicle/engine objects may be stored under the snake_case key written by
`create-checklist.tsx`, under the camelCase key of the legacy shape, or be
absent altogether. -/
structure RawVehicleRecord where
  vehicleInfo : Option VehicleInfo
  vehicle_info : Option VehicleInfo
  engineInfo : Option EngineInfo
  engine_info : Option EngineInfo
deriving DecidableEq

/-- JavaScript `a || b` where `a` is an optional-chaining read
(`obj?.field`): `undefined` and the empty string are falsy. -/
def jsOrOpt (a : Option String) (b : String) : String :=
  match a with
  | none => b
  | some s => if s = "" then b else s

/-- One `InfoRow` value of `vehicle-info/[id].tsx`:
`checklist.vehicleInfo?.f || checklist.vehicle_info?.f || ''`. -/
def infoRowValue (primary fallback : Option String) : String :=
  jsOrOpt primary (jsOrOpt fallback "")

/-- A displayed vehicle field: camelCase shape first, snake_case fallback,
empty string default. -/
def displayVehicleField (r : RawVehicleRecord) (get : VehicleInfo → String) : String :=
  infoRowValue (r.vehicleInfo.map get) (r.vehicle_info.map get)

/-- A displayed engine field: camelCase shape first, snake_case fallback,
empty string default. -/
def displayEngineField (r : RawVehicleRecord) (get : EngineInfo → String) : String :=
  infoRowValue (r.engineInfo.map get) (r.engine_info.map get)

/-- Stores reachable from the empty store by the screens' operations: a
create (`onSubmit`, with an id not already in use, per the unique
time-derived id of §4.1), any save of a record loaded by id and transformed
by a screen operation (`addItem`, `toggleItem`, `addPhoto`,
`updatePhotoDescription`, `deletePhoto` all spread the loaded checklist, so
they preserve its id), or a delete (`handleDeleteChecklist`). -/
inductive Reachable : Store → Prop where
  | empty : Reachable ⟨[], []⟩
  | create (s : Store) (data : FormData) (id now : String) :
      Reachable s → getRecord s id = none → Reachable (createChecklist s data id now)
  | save (s : Store) (id : String) (c u : VehicleChecklist) (now : String) :
      Reachable s → getRecord s id = some c → u.id = c.id →
      Reachable (saveChecklist s id u now)
  | delete (s : Store) (id : String) :
      Reachable s → Reachable (deleteChecklist s id)

/-- Sample data for concrete evaluations: all-empty vehicle info. -/
def emptyVI : VehicleInfo :=
  { make := "", model := "", series := "", year := "", bodyType := "", doors := "",
    assembly := "", licensing := "", purchaseDate := "", vin := "", buildDate := "",
    trimCode := "", optionCode := "", odometer := "", paintColor := "", engine := "",
    transmission := "", drive := "", layout := "", rimSize := "", tyreSize := "",
    weight := "", wheelbase := "", length := "", height := "", width := "" }

/-- Sample data: all-empty engine info. -/
def emptyEI : EngineInfo :=
  { engineNumber := "", engineCode := "", description := "", bore := "", stroke := "",
    compressionRatio := "", power := "", torque := "" }

/-- Sample data: the §8 scenario vehicle. -/
def sampleVI : VehicleInfo :=
  { emptyVI with make := "Toyota", model := "Camry", year := "2023" }

/-- Sample form data with no explicit title. -/
def sampleData : FormData :=
  { title := "", vehicleInfo := sampleVI, engineInfo := emptyEI }

/-- The checklist created from `sampleData` with id `1` at time `t0`. -/
def sampleChecklist : VehicleChecklist :=
  mkNewChecklist sampleData "1" "t0"

/-- The store after creating `sampleChecklist` in the empty store. -/
def sampleStore : Store :=
  createChecklist ⟨[], []⟩ sampleData "1" "t0"

/-- Form data with an explicit title, for concrete evaluations. -/
def titledData : FormData :=
  { title := "Project car", vehicleInfo := sampleVI, engineInfo := emptyEI }

/-- Sample checklist holding one uncompleted task, for concrete instances. -/
def sampleItemChecklist : VehicleChecklist :=
  { sampleChecklist with
    tasks := [{ id := "i1", text := "Replace timing belt", completed := false,
                completed_at := none }] }

/-- Whether an index entry is in the summary-projection shape. -/
def isSummaryEntry : IndexEntry → Bool
  | .full _ => false
  | .summary _ => true

/-- Consistency of one index entry with the record store: a full-record entry
equals its stored record, and a summary entry is the projection of its
stored record. -/
def entryOkB (s : Store) : IndexEntry → Bool
  | .full c => getRecord s c.id == some c
  | .summary sm =>
      match getRecord s sm.id with
      | none => false
      | some c => sm == projOf c

/-- The store invariant maintained by the screens' operations: index ids are
pairwise distinct, every index entry is consistent with the record store,
and every stored record sits under the key derived from its own id. -/
def StoreInv (s : Store) : Prop :=
  (s.index.map IndexEntry.entryId).Nodup ∧
  (∀ e ∈ s.index, entryOkB s e = true) ∧
  (∀ p ∈ s.records, p.2.id = p.1)

theorem find?_setPairs_self (k : String) (v : VehicleChecklist)
    (rs : List (String × VehicleChecklist)) :
    (setPairs k v rs).find? (fun p => p.1 == k) = some (k, v) := by
  induction rs with
  | nil => simp [setPairs]
  | cons p rest ih =>
      by_cases h : p.1 = k
      · simp [setPairs, h]
      · simp only [setPairs, beq_iff_eq, h, if_false]
        rw [List.find?_cons_of_neg]
        · exact ih
        · simp [h]

theorem find?_setPairs_other (k k' : String) (v : VehicleChecklist)
    (rs : List (String × VehicleChecklist)) (hne : k' ≠ k) :
    (setPairs k v rs).find? (fun p => p.1 == k') = rs.find? (fun p => p.1 == k') := by
  induction rs with
  | nil => simp [setPairs, Ne.symm hne]
  | cons p rest ih =>
      by_cases h : p.1 = k
      · subst h
        simp only [setPairs, beq_self_eq_true, if_true]
        rw [List.find?_cons_of_neg, List.find?_cons_of_neg]
        · simp [Ne.symm hne]
        · simp [Ne.symm hne]
      · simp only [setPairs, beq_iff_eq, h, if_false]
        by_cases h' : p.1 = k'
        · rw [List.find?_cons_of_pos, List.find?_cons_of_pos] <;> simp [h']
        · rw [List.find?_cons_of_neg, List.find?_cons_of_neg]
          · exact ih
          · simp [h']
          · simp [h']

theorem getRecord_setRecord_self (s : Store) (k : String) (v : VehicleChecklist) :
    getRecord (setRecord s k v) k = some v := by
  simp [getRecord, setRecord, find?_setPairs_self]

theorem getRecord_setRecord_other (s : Store) (k k' : String) (v : VehicleChecklist)
    (hne : k' ≠ k) : getRecord (setRecord s k v) k' = getRecord s k' := by
  simp [getRecord, setRecord, find?_setPairs_other k k' v s.records hne]

theorem mem_setPairs (k : String) (v : VehicleChecklist)
    (rs : List (String × VehicleChecklist)) (p : String × VehicleChecklist)
    (hp : p ∈ setPairs k v rs) : p = (k, v) ∨ p ∈ rs := by
  induction rs with
  | nil => simpa [setPairs] using hp
  | cons q rest ih =>
      by_cases h : q.1 = k
      · simp only [setPairs, beq_iff_eq, h, if_true] at hp
        rcases List.mem_cons.mp hp with h1 | h1
        · exact Or.inl h1
        · exact Or.inr (List.mem_cons_of_mem _ h1)
      · simp only [setPairs, beq_iff_eq, h, if_false] at hp
        rcases List.mem_cons.mp hp with h1 | h1
        · exact Or.inr (h1 ▸ List.mem_cons_self _ _)
        · rcases ih h1 with h2 | h2
          · exact Or.inl h2
          · exact Or.inr (List.mem_cons_of_mem _ h2)

theorem getRecord_mem (s : Store) (k : String) (c : VehicleChecklist)
    (h : getRecord s k = some c) : (k, c) ∈ s.records := by
  simp only [getRecord, Option.map_eq_some'] at h
  obtain ⟨p, hfind, hp⟩ := h
  have hmem := List.mem_of_find?_eq_some hfind
  have hpred := List.find?_some hfind
  simp only [beq_iff_eq] at hpred
  have : p = (k, c) := by
    cases p; simp_all
  exact this ▸ hmem

theorem getSection_setSection_same (c : VehicleChecklist) (sec : ListName)
    (l : List ChecklistItem) : getSection (setSection c sec l) sec = l := by
  cases sec <;> rfl

theorem getSection_setSection_ne (c : VehicleChecklist) (sec sec' : ListName)
    (l : List ChecklistItem) (h : sec' ≠ sec) :
    getSection (setSection c sec l) sec' = getSection c sec' := by
  cases sec <;> cases sec' <;> first | exact absurd rfl h | rfl

theorem setSection_photos (c : VehicleChecklist) (sec : ListName)
    (l : List ChecklistItem) : (setSection c sec l).photos = c.photos := by
  cases sec <;> rfl

theorem setSection_id (c : VehicleChecklist) (sec : ListName)
    (l : List ChecklistItem) : (setSection c sec l).id = c.id := by
  cases sec <;> rfl

theorem setSection_title (c : VehicleChecklist) (sec : ListName)
    (l : List ChecklistItem) : (setSection c sec l).title = c.title := by
  cases sec <;> rfl

theorem setSection_vehicle_info (c : VehicleChecklist) (sec : ListName)
    (l : List ChecklistItem) : (setSection c sec l).vehicle_info = c.vehicle_info := by
  cases sec <;> rfl

theorem setSection_engine_info (c : VehicleChecklist) (sec : ListName)
    (l : List ChecklistItem) : (setSection c sec l).engine_info = c.engine_info := by
  cases sec <;> rfl

theorem setSection_created_at (c : VehicleChecklist) (sec : ListName)
    (l : List ChecklistItem) : (setSection c sec l).created_at = c.created_at := by
  cases sec <;> rfl

theorem saveApply_getSection (c : VehicleChecklist) (sec : ListName) (now : String) :
    getSection (saveApply c now) sec = getSection c sec := by
  cases sec <;> rfl

/-- Claim C1 counterexample: in the store holding exactly the checklist with
id `1`, `handleDeleteChecklist "1"` empties the index, yet `get "1"` still
returns the full record rather than `NotFound` — the `checklist_1` key is
never removed, so the claim as stated is false at this input. -/
theorem delete_leaves_record_cex :
    (deleteChecklist sampleStore "1").index = [] ∧
    getRecord (deleteChecklist sampleStore "1") "1" = some sampleChecklist ∧
    getRecord (deleteChecklist sampleStore "1") "1" ≠ none := by
  refine ⟨by decide, by decide, by decide⟩

/-- Claim C1 (amended): `delete(X)` removes every index entry whose id is `X`
from the key `vehicle_checklists`, so `listSummaries` afterwards does not
include `X`; it does not touch any `checklist_<id>` key, so `get` afterwards
returns exactly what it returned before. -/
theorem delete_removes_only_summary (s : Store) (id : String) :
    (∀ e ∈ (deleteChecklist s id).index, e.entryId ≠ id) ∧
    (deleteChecklist s id).records = s.records := by
  constructor
  · intro e he
    have := (List.mem_filter.mp he).2
    simpa [bne_iff_ne] using this
  · rfl

/-- Concrete instance of the amended C1 theorem at `sampleStore` and id `1`. -/
theorem delete_removes_only_summary_witness :
    (∀ e ∈ (deleteChecklist sampleStore "1").index, e.entryId ≠ "1") ∧
    (deleteChecklist sampleStore "1").records = sampleStore.records :=
  delete_removes_only_summary sampleStore "1"

/-- Claim C4: creating a checklist and immediately reading it back by its new
id yields a record whose supplied fields match the input (the title when one
was supplied; the vehicle and engine info always), whose four item lists and
photo list are empty, and whose `created_at` equals its `updated_at`. -/
theorem create_then_get (s : Store) (data : FormData) (id now : String) :
    ∃ c, getRecord (createChecklist s data id now) id = some c ∧
      c.vehicle_info = data.vehicleInfo ∧
      c.engine_info = data.engineInfo ∧
      (data.title ≠ "" → c.title = data.title) ∧
      c.tasks = [] ∧ c.parts_to_install = [] ∧ c.maintenance = [] ∧
      c.research_items = [] ∧ c.photos = [] ∧
      c.created_at = c.updated_at := by
  refine ⟨mkNewChecklist data id now, ?_, rfl, rfl, ?_, rfl, rfl, rfl, rfl, rfl, rfl⟩
  · exact getRecord_setRecord_self _ _ _
  · intro h
    simp [mkNewChecklist, jsOrString, h]

/-- Concrete instance of C4: create with an explicit title and read back. -/
theorem create_then_get_witness :
    ∃ c, getRecord (createChecklist ⟨[], []⟩ titledData "2" "t1") "2" = some c ∧
      c.vehicle_info = titledData.vehicleInfo ∧
      c.engine_info = titledData.engineInfo ∧
      (titledData.title ≠ "" → c.title = titledData.title) ∧
      c.tasks = [] ∧ c.parts_to_install = [] ∧ c.maintenance = [] ∧
      c.research_items = [] ∧ c.photos = [] ∧
      c.created_at = c.updated_at :=
  create_then_get ⟨[], []⟩ titledData "2" "t1"

/-- Claim C9: when the title field is empty, the created checklist's title is
the template `<year> <make> <model>` built from the supplied vehicle info. -/
theorem create_default_title (s : Store) (data : FormData) (id now : String)
    (h : data.title = "") :
    (getRecord (createChecklist s data id now) id).map VehicleChecklist.title =
      some (data.vehicleInfo.year ++ " " ++ data.vehicleInfo.make ++ " " ++
        data.vehicleInfo.model) := by
  rw [createChecklist, getRecord_setRecord_self]
  simp [mkNewChecklist, jsOrString, h, defaultTitle]

/-- Concrete instance of C9: make `Toyota`, model `Camry`, year `2023` and no
explicit title give the title `2023 Toyota Camry`. -/
theorem create_default_title_witness :
    sampleData.title = "" ∧
    (getRecord (createChecklist ⟨[], []⟩ sampleData "1" "t0") "1").map
      VehicleChecklist.title = some "2023 Toyota Camry" := by
  refine ⟨rfl, ?_⟩
  rw [create_default_title ⟨[], []⟩ sampleData "1" "t0" rfl]
  rfl

/-- Claim C10: reading a stored record whose nested vehicle/engine object is
absent or stored under the alternate camelCase key never fails: each
displayed field is taken from whichever of the two shapes is present and
defaults to the empty string when neither is. -/
theorem legacy_record_display (getV : VehicleInfo → String) (getE : EngineInfo → String)
    (vi : VehicleInfo) (ei : EngineInfo) :
    displayVehicleField ⟨none, none, none, none⟩ getV = "" ∧
    displayEngineField ⟨none, none, none, none⟩ getE = "" ∧
    displayVehicleField ⟨some vi, none, none, none⟩ getV = getV vi ∧
    displayVehicleField ⟨none, some vi, none, none⟩ getV = getV vi ∧
    displayEngineField ⟨none, none, some ei, none⟩ getE = getE ei ∧
    displayEngineField ⟨none, none, none, some ei⟩ getE = getE ei := by
  refine ⟨rfl, rfl, ?_, ?_, ?_, ?_⟩ <;>
    simp only [displayVehicleField, displayEngineField, infoRowValue, jsOrOpt,
      Option.map_some', Option.map_none'] <;>
    split <;> simp_all

theorem toggleOne_id (item : ChecklistItem) (now : String) :
    (toggleOne item now).id = item.id := rfl

theorem toggleOne_text (item : ChecklistItem) (now : String) :
    (toggleOne item now).text = item.text := rfl

theorem toggleInList_find (itemId now : String) (l : List ChecklistItem)
    (item : ChecklistItem) (h : l.find? (fun it => it.id == itemId) = some item) :
    ∃ l', toggleInList itemId now l = some l' ∧
      l'.find? (fun it => it.id == itemId) = some (toggleOne item now) := by
  induction l with
  | nil => simp at h
  | cons a rest ih =>
      by_cases ha : a.id = itemId
      · rw [List.find?_cons_of_pos _ (by simpa using ha)] at h
        obtain rfl : a = item := by simpa using h
        refine ⟨toggleOne a now :: rest, ?_, ?_⟩
        · simp [toggleInList, ha]
        · exact List.find?_cons_of_pos _ (by simpa [toggleOne_id] using ha)
      · rw [List.find?_cons_of_neg _ (by simpa using ha)] at h
        obtain ⟨l', hl', hfind⟩ := ih h
        refine ⟨a :: l', ?_, ?_⟩
        · simp [toggleInList, ha, hl']
        · rw [List.find?_cons_of_neg _ (by simpa using ha)]
          exact hfind

theorem toggleInList_decomp (itemId now : String) (l l' : List ChecklistItem)
    (h : toggleInList itemId now l = some l') :
    ∃ pre item post, l = pre ++ item :: post ∧ item.id = itemId ∧
      (∀ x ∈ pre, x.id ≠ itemId) ∧ l' = pre ++ toggleOne item now :: post := by
  induction l generalizing l' with
  | nil => simp [toggleInList] at h
  | cons a rest ih =>
      by_cases ha : a.id = itemId
      · refine ⟨[], a, rest, by simp, ha, by simp, ?_⟩
        simp only [toggleInList, ha, beq_self_eq_true, if_true] at h
        simp only [List.nil_append]
        exact (Option.some_injective _ h).symm
      · simp only [toggleInList, beq_iff_eq, ha, if_false, Option.map_eq_some'] at h
        obtain ⟨l'', hl'', rfl⟩ := h
        obtain ⟨pre, item, post, hsplit, hid, hpre, hres⟩ := ih l'' hl''
        refine ⟨a :: pre, item, post, by simp [hsplit], hid, ?_, by simp [hres]⟩
        intro x hx
        rcases List.mem_cons.mp hx with rfl | hx
        · exact ha
        · exact hpre x hx

theorem toggleItem_getSection_of_some (c : VehicleChecklist) (sec : ListName)
    (itemId now : String) (l' : List ChecklistItem)
    (h : toggleInList itemId now (getSection c sec) = some l') :
    getSection (toggleItemChecklist c sec itemId now) sec = l' := by
  simp only [toggleItemChecklist, h]
  rw [saveApply_getSection, getSection_setSection_same]

/-- Claim C5: `addItem` returns the checklist unchanged when the trimmed text
is empty; otherwise it appends exactly one new item (fresh id, trimmed text,
`completed = false`, no completion time) at the end of the named list, and
the only other change is the `updated_at` stamp applied by the routing
through `saveChecklist`. -/
theorem appendItem_spec (c : VehicleChecklist) (sec : ListName)
    (text freshId now : String) :
    (jsTrim text = "" → addItemChecklist c sec text freshId now = c) ∧
    (jsTrim text ≠ "" →
      getSection (addItemChecklist c sec text freshId now) sec =
        getSection c sec ++ [ChecklistItem.mk freshId (jsTrim text) false none] ∧
      (addItemChecklist c sec text freshId now).updated_at = now ∧
      (addItemChecklist c sec text freshId now).id = c.id ∧
      (addItemChecklist c sec text freshId now).title = c.title ∧
      (addItemChecklist c sec text freshId now).vehicle_info = c.vehicle_info ∧
      (addItemChecklist c sec text freshId now).engine_info = c.engine_info ∧
      (addItemChecklist c sec text freshId now).created_at = c.created_at ∧
      (addItemChecklist c sec text freshId now).photos = c.photos ∧
      (∀ sec', sec' ≠ sec →
        getSection (addItemChecklist c sec text freshId now) sec' = getSection c sec')) := by
  constructor
  · intro h
    simp [addItemChecklist, h]
  · intro h
    simp only [addItemChecklist, h, if_false]
    refine ⟨?_, rfl, ?_, ?_, ?_, ?_, ?_, ?_, ?_⟩
    · rw [saveApply_getSection, getSection_setSection_same]
    · simp [saveApply, setSection_id]
    · simp [saveApply, setSection_title]
    · simp [saveApply, setSection_vehicle_info]
    · simp [saveApply, setSection_engine_info]
    · simp [saveApply, setSection_created_at]
    · simp [saveApply, setSection_photos]
    · intro sec' hne
      rw [saveApply_getSection, getSection_setSection_ne _ _ _ _ hne]

/-- Concrete instance of C5: appending `Replace timing belt` to the empty
task list of the sample checklist. -/
theorem appendItem_spec_witness :
    getSection (addItemChecklist sampleChecklist ListName.tasks "Replace timing belt"
        "i1" "t1") ListName.tasks =
      [ChecklistItem.mk "i1" "Replace timing belt" false none] ∧
    (addItemChecklist sampleChecklist ListName.tasks "Replace timing belt"
        "i1" "t1").updated_at = "t1" := by
  obtain ⟨-, h⟩ :=
    appendItem_spec sampleChecklist ListName.tasks "Replace timing belt" "i1" "t1"
  obtain ⟨hl, hup, -⟩ := h (by decide)
  exact ⟨hl.trans (by decide), hup⟩

/-- Claim C6: two immediate `toggleItem` calls on the same item id land on
the same (first-matching) item; its `completed` flag returns to its original
value, and an item that started uncompleted ends with `completed = false`
and `completed_at` cleared. -/
theorem toggle_twice (c : VehicleChecklist) (sec : ListName)
    (itemId now1 now2 : String) (item : ChecklistItem)
    (h : (getSection c sec).find? (fun it => it.id == itemId) = some item) :
    ((getSection (toggleItemChecklist (toggleItemChecklist c sec itemId now1)
        sec itemId now2) sec).find? (fun it => it.id == itemId)).map
        ChecklistItem.completed = some item.completed ∧
    (item.completed = false →
      (getSection (toggleItemChecklist (toggleItemChecklist c sec itemId now1)
          sec itemId now2) sec).find? (fun it => it.id == itemId) =
        some (ChecklistItem.mk item.id item.text false none)) := by
  obtain ⟨l1, hl1, hfind1⟩ := toggleInList_find itemId now1 _ item h
  have hc1 : getSection (toggleItemChecklist c sec itemId now1) sec = l1 :=
    toggleItem_getSection_of_some c sec itemId now1 l1 hl1
  obtain ⟨l2, hl2, hfind2⟩ :=
    toggleInList_find itemId now2 l1 (toggleOne item now1) hfind1
  have hl2' : toggleInList itemId now2
      (getSection (toggleItemChecklist c sec itemId now1) sec) = some l2 := by
    rw [hc1]; exact hl2
  have hc2 : getSection (toggleItemChecklist (toggleItemChecklist c sec itemId now1)
      sec itemId now2) sec = l2 :=
    toggleItem_getSection_of_some _ sec itemId now2 l2 hl2'
  rw [hc2, hfind2]
  constructor
  · simp [toggleOne, Bool.not_not]
  · intro hfalse
    simp [toggleOne, hfalse]

/-- Concrete instance of C6: the sample task toggled at `t1` and again at
`t2` is uncompleted afterwards with no completion time. -/
theorem toggle_twice_witness :
    ((getSection (toggleItemChecklist (toggleItemChecklist sampleItemChecklist
        ListName.tasks "i1" "t1") ListName.tasks "i1" "t2") ListName.tasks).find?
        (fun it => it.id == "i1")).map ChecklistItem.completed = some false ∧
    (getSection (toggleItemChecklist (toggleItemChecklist sampleItemChecklist
        ListName.tasks "i1" "t1") ListName.tasks "i1" "t2") ListName.tasks).find?
        (fun it => it.id == "i1") =
      some (ChecklistItem.mk "i1" "Replace timing belt" false none) := by
  obtain ⟨h1, h2⟩ := toggle_twice sampleItemChecklist ListName.tasks "i1" "t1" "t2"
    (ChecklistItem.mk "i1" "Replace timing belt" false none) (by decide)
  exact ⟨h1, h2 rfl⟩

/-- Claim C7: `addItem` and `toggleItem` only touch the targeted list;
within it, `addItem` appends at the end (all existing items keep value and
position) and `toggleItem` rewrites exactly the first item whose id matches
(everything before and after it is kept in place, and the rewritten item
keeps its id and text); the three sibling lists and the photo list are
unchanged. -/
theorem item_ops_frame (c : VehicleChecklist) (sec : ListName)
    (text freshId itemId now : String) :
    (jsTrim text ≠ "" →
      getSection (addItemChecklist c sec text freshId now) sec =
        getSection c sec ++ [ChecklistItem.mk freshId (jsTrim text) false none] ∧
      (∀ sec', sec' ≠ sec →
        getSection (addItemChecklist c sec text freshId now) sec' = getSection c sec') ∧
      (addItemChecklist c sec text freshId now).photos = c.photos) ∧
    (toggleItemChecklist c sec itemId now = c ∨
      ∃ pre item post,
        getSection c sec = pre ++ item :: post ∧
        item.id = itemId ∧
        (∀ x ∈ pre, x.id ≠ itemId) ∧
        getSection (toggleItemChecklist c sec itemId now) sec =
          pre ++ toggleOne item now :: post ∧
        (toggleOne item now).id = item.id ∧
        (toggleOne item now).text = item.text ∧
        (∀ sec', sec' ≠ sec →
          getSection (toggleItemChecklist c sec itemId now) sec' = getSection c sec') ∧
        (toggleItemChecklist c sec itemId now).photos = c.photos) := by
  constructor
  · intro h
    simp only [addItemChecklist, h, if_false]
    refine ⟨?_, ?_, ?_⟩
    · rw [saveApply_getSection, getSection_setSection_same]
    · intro sec' hne
      rw [saveApply_getSection, getSection_setSection_ne _ _ _ _ hne]
    · simp [saveApply, setSection_photos]
  · cases htog : toggleInList itemId now (getSection c sec) with
    | none =>
        left
        simp [toggleItemChecklist, htog]
    | some l' =>
        right
        obtain ⟨pre, item, post, hsplit, hid, hpre, hres⟩ :=
          toggleInList_decomp itemId now _ l' htog
        refine ⟨pre, item, post, hsplit, hid, hpre, ?_, rfl, rfl, ?_, ?_⟩
        · simp only [toggleItemChecklist, htog]
          rw [saveApply_getSection, getSection_setSection_same, hres]
        · intro sec' hne
          simp only [toggleItemChecklist, htog]
          rw [saveApply_getSection, getSection_setSection_ne _ _ _ _ hne]
        · simp [toggleItemChecklist, htog, saveApply, setSection_photos]

/-- Concrete instance of C7: appending to `parts_to_install` and toggling the
sample task leave the sibling lists and the photo list unchanged. -/
theorem item_ops_frame_witness :
    (getSection (addItemChecklist sampleItemChecklist ListName.parts_to_install
        "New part" "i2" "t1") ListName.tasks =
      getSection sampleItemChecklist ListName.tasks ∧
      (addItemChecklist sampleItemChecklist ListName.parts_to_install
        "New part" "i2" "t1").photos = sampleItemChecklist.photos) ∧
    (toggleItemChecklist sampleItemChecklist ListName.tasks "i1" "t1" =
        sampleItemChecklist ∨
      ∃ pre item post,
        getSection sampleItemChecklist ListName.tasks = pre ++ item :: post ∧
        item.id = "i1" ∧
        (∀ x ∈ pre, x.id ≠ "i1") ∧
        getSection (toggleItemChecklist sampleItemChecklist ListName.tasks "i1" "t1")
            ListName.tasks = pre ++ toggleOne item "t1" :: post ∧
        (toggleOne item "t1").id = item.id ∧
        (toggleOne item "t1").text = item.text ∧
        (∀ sec', sec' ≠ ListName.tasks →
          getSection (toggleItemChecklist sampleItemChecklist ListName.tasks "i1" "t1")
            sec' = getSection sampleItemChecklist sec') ∧
        (toggleItemChecklist sampleItemChecklist ListName.tasks "i1" "t1").photos =
          sampleItemChecklist.photos) := by
  obtain ⟨hadd, htog⟩ := item_ops_frame sampleItemChecklist ListName.parts_to_install
    "New part" "i2" "i1" "t1"
  obtain ⟨-, hsib, hph⟩ := hadd (by decide)
  obtain ⟨-, htog'⟩ := item_ops_frame sampleItemChecklist ListName.tasks
    "New part" "i2" "i1" "t1"
  exact ⟨⟨hsib ListName.tasks (by decide), hph⟩, htog'⟩

/-- Claim C8 counterexample: on the sample checklist (no photos, `updated_at
= t0`), `updatePhotoDescription` with an unknown photo id at time `t1` is
not a no-op — the record is still saved with a refreshed `updated_at`. -/
theorem updatePhotoDesc_not_noop_cex :
    updatePhotoDesc sampleChecklist "p9" "Engine bay" "t1" ≠ sampleChecklist ∧
    (updatePhotoDesc sampleChecklist "p9" "Engine bay" "t1").photos =
      sampleChecklist.photos := by
  refine ⟨by decide, by decide⟩

/-- Claim C8 (amended): `updatePhotoDescription` rewrites exactly the photos
whose id matches, replacing only their description and keeping id,
base64_data and timestamp; all other photos are untouched.  When no photo
matches, the photos list is unchanged, but the checklist is still routed
through the save path, so `updated_at` is refreshed — the operation is a
no-op on the photos list only, not on the record. -/
theorem updatePhotoDesc_spec (c : VehicleChecklist) (photoId desc now : String) :
    (∀ i : Nat,
      (updatePhotoDesc c photoId desc now).photos[i]? = (c.photos[i]?).map
        (fun p => if p.id == photoId then Photo.mk p.id p.base64_data desc p.timestamp
          else p)) ∧
    (updatePhotoDesc c photoId desc now).updated_at = now ∧
    ((∀ p ∈ c.photos, p.id ≠ photoId) →
      updatePhotoDesc c photoId desc now = saveApply c now) := by
  refine ⟨?_, rfl, ?_⟩
  · intro i
    simp [updatePhotoDesc, saveApply]
  · intro hnone
    have hmap : c.photos.map
        (fun p => if p.id == photoId then { p with description := desc } else p) =
        c.photos := by
      rw [show c.photos = c.photos.map id by simp]
      rw [List.map_map]
      refine List.map_congr_left ?_
      intro p hp
      simp only [Function.comp, id]
      rw [if_neg]
      simp [hnone p (by simpa using hp)]
    simp only [updatePhotoDesc, hmap]

/-- Concrete instance of the amended C8 theorem: a checklist with one photo,
its description rewritten to `Engine bay`. -/
theorem updatePhotoDesc_spec_witness :
    (updatePhotoDesc
        { sampleChecklist with photos := [Photo.mk "p1" "abc123" "" "t0"] }
        "p1" "Engine bay" "t1").photos[0]? =
      some (Photo.mk "p1" "abc123" "Engine bay" "t0") ∧
    (updatePhotoDesc
        { sampleChecklist with photos := [Photo.mk "p1" "abc123" "" "t0"] }
        "p1" "Engine bay" "t1").updated_at = "t1" ∧
    updatePhotoDesc sampleChecklist "p8" "x" "t1" = saveApply sampleChecklist "t1" := by
  obtain ⟨h1, h2, -⟩ := updatePhotoDesc_spec
    { sampleChecklist with photos := [Photo.mk "p1" "abc123" "" "t0"] }
    "p1" "Engine bay" "t1"
  obtain ⟨-, -, h3⟩ := updatePhotoDesc_spec sampleChecklist "p8" "x" "t1"
  exact ⟨(h1 0).trans (by decide), h2, h3 (by decide)⟩

theorem updateIndexEntries_none_iff (id : String) (sm : ChecklistSummary)
    (l : List IndexEntry) :
    updateIndexEntries id sm l = none ↔ ∀ e ∈ l, e.entryId ≠ id := by
  induction l with
  | nil => simp [updateIndexEntries]
  | cons a rest ih =>
      by_cases ha : a.entryId = id
      · simp [updateIndexEntries, ha]
      · simp [updateIndexEntries, ha, ih]

theorem updateIndexEntries_decomp (id : String) (sm : ChecklistSummary)
    (l l' : List IndexEntry) (h : updateIndexEntries id sm l = some l') :
    ∃ pre e post, l = pre ++ e :: post ∧ e.entryId = id ∧
      (∀ x ∈ pre, x.entryId ≠ id) ∧
      l' = pre ++ IndexEntry.summary sm :: post := by
  induction l generalizing l' with
  | nil => simp [updateIndexEntries] at h
  | cons a rest ih =>
      by_cases ha : a.entryId = id
      · refine ⟨[], a, rest, by simp, ha, by simp, ?_⟩
        simp only [updateIndexEntries, ha, beq_self_eq_true, if_true] at h
        simp only [List.nil_append]
        exact (Option.some_injective _ h).symm
      · simp only [updateIndexEntries, beq_iff_eq, ha, if_false,
          Option.map_eq_some'] at h
        obtain ⟨l'', hl'', rfl⟩ := h
        obtain ⟨pre, e, post, hsplit, hid, hpre, hres⟩ := ih l'' hl''
        refine ⟨a :: pre, e, post, by simp [hsplit], hid, ?_, by simp [hres]⟩
        intro x hx
        rcases List.mem_cons.mp hx with rfl | hx
        · exact ha
        · exact hpre x hx

/-- Claim C2 counterexample: starting from the reachable store in which the
checklist with id `1` exists but (after a delete) has no index entry, a
successful `update` of id `1` leaves the index empty — no `ChecklistSummary`
is inserted, so the "or inserts" part of the claim is false at this input. -/
theorem update_no_insert_cex :
    (updateChecklist (deleteChecklist sampleStore "1") "1" (fun c => c) "t1").map
      Store.index = some [] ∧
    ((updateChecklist (deleteChecklist sampleStore "1") "1" (fun c => c) "t1").bind
      (fun s' => getRecord s' "1")).isSome = true := by
  refine ⟨by decide, by decide⟩

/-- Claim C2 (amended): a successful `update(id, mutator)` on an existing
record stamps `updated_at = now` on the mutated record, persists it under
`checklist_<id>`, leaves every other record key unchanged, and rewrites the
first index entry for that id — when one exists — as the
`ChecklistSummary` projection of the persisted record (so its title,
vehicle_info and updated_at equal those of the full record), leaving every
other index entry unaltered; when the index holds no entry for that id, the
index is left unchanged (no entry is inserted). -/
theorem update_syncs_summary (s s' : Store) (id now : String)
    (mutate : VehicleChecklist → VehicleChecklist) (c : VehicleChecklist)
    (hrec : getRecord s id = some c)
    (hupd : updateChecklist s id mutate now = some s') :
    getRecord s' id = some (saveApply (mutate c) now) ∧
    (∀ k, k ≠ id → getRecord s' k = getRecord s k) ∧
    ((s'.index = s.index ∧ ∀ e ∈ s.index, e.entryId ≠ id) ∨
      ∃ pre e post, s.index = pre ++ e :: post ∧ e.entryId = id ∧
        (∀ x ∈ pre, x.entryId ≠ id) ∧
        s'.index = pre ++
          IndexEntry.summary (projOf (saveApply (mutate c) now)) :: post) := by
  have hs' : s' = saveChecklist s id (mutate c) now := by
    rw [updateChecklist, hrec] at hupd
    exact (Option.some_injective _ hupd).symm
  subst hs'
  cases hm : updateIndexEntries id (projOf (saveApply (mutate c) now)) s.index with
  | none =>
      have hsave : saveChecklist s id (mutate c) now =
          setRecord s id (saveApply (mutate c) now) := by
        simp only [saveChecklist, setRecord, hm]
      rw [hsave]
      refine ⟨getRecord_setRecord_self _ _ _, ?_, ?_⟩
      · intro k hk
        exact getRecord_setRecord_other _ _ _ _ hk
      · exact Or.inl ⟨rfl, (updateIndexEntries_none_iff _ _ _).mp hm⟩
  | some entries =>
      have hsave : saveChecklist s id (mutate c) now =
          { setRecord s id (saveApply (mutate c) now) with index := entries } := by
        simp only [saveChecklist, setRecord, hm]
      rw [hsave]
      refine ⟨getRecord_setRecord_self _ _ _, ?_, ?_⟩
      · intro k hk
        exact getRecord_setRecord_other _ _ _ _ hk
      · right
        obtain ⟨pre, e, post, hsplit, hid, hpre, hres⟩ :=
          updateIndexEntries_decomp _ _ _ _ hm
        exact ⟨pre, e, post, hsplit, hid, hpre, hres⟩

/-- Concrete instance of the amended C2 theorem: retitling the sample
checklist syncs its index entry to the summary projection. -/
theorem update_syncs_summary_witness :
    getRecord sampleStore "1" = some sampleChecklist ∧
    ∃ s', updateChecklist sampleStore "1"
        (fun c => { c with title := "Renamed" }) "t1" = some s' ∧
      getRecord s' "1" =
        some (saveApply ({ sampleChecklist with title := "Renamed" }) "t1") := by
  refine ⟨by decide, saveChecklist sampleStore "1"
    ({ sampleChecklist with title := "Renamed" }) "t1", by decide, ?_⟩
  obtain ⟨h1, -, -⟩ := update_syncs_summary sampleStore
    (saveChecklist sampleStore "1" ({ sampleChecklist with title := "Renamed" }) "t1")
    "1" "t1" (fun c => { c with title := "Renamed" }) sampleChecklist
    (by decide) (by decide)
  exact h1

theorem entryOkB_congr (s s' : Store) (e : IndexEntry)
    (h : getRecord s' e.entryId = getRecord s e.entryId) :
    entryOkB s' e = entryOkB s e := by
  cases e with
  | full c =>
      simp only [entryOkB]
      rw [show getRecord s' c.id = getRecord s c.id from h]
  | summary sm =>
      simp only [entryOkB]
      rw [show getRecord s' sm.id = getRecord s sm.id from h]

theorem isSome_of_entryOkB (s : Store) (e : IndexEntry)
    (h : entryOkB s e = true) : (getRecord s e.entryId).isSome = true := by
  cases e with
  | full c =>
      simp only [entryOkB, beq_iff_eq] at h
      simp [IndexEntry.entryId, h]
  | summary sm =>
      simp only [entryOkB] at h
      cases hg : getRecord s sm.id with
      | none => rw [hg] at h; simp at h
      | some c => simp [IndexEntry.entryId, hg]

theorem reachable_storeInv (s : Store) (h : Reachable s) : StoreInv s := by
  induction h with
  | empty => exact ⟨by simp, by simp, by simp⟩
  | create s data id now hr hnone ih =>
      obtain ⟨ihn, ihe, ihr⟩ := ih
      have hnotin : id ∉ s.index.map IndexEntry.entryId := by
        intro hmem
        obtain ⟨e, he, heid⟩ := List.mem_map.mp hmem
        have hsome := isSome_of_entryOkB s e (ihe e he)
        rw [heid, hnone] at hsome
        simp at hsome
      refine ⟨?_, ?_, ?_⟩
      · show ((s.index ++ [IndexEntry.full (mkNewChecklist data id now)]).map
          IndexEntry.entryId).Nodup
        rw [List.map_append, List.nodup_append]
        refine ⟨ihn, by simp, ?_⟩
        intro a ha hb
        simp only [List.map_cons, List.map_nil, List.mem_cons, List.not_mem_nil,
          or_false] at hb
        rw [hb] at ha
        exact hnotin ha
      · intro e he
        rcases List.mem_append.mp he with he' | he'
        · have hne : e.entryId ≠ id := fun hh => hnotin (List.mem_map.mpr ⟨e, he', hh⟩)
          have hrec_eq : getRecord (createChecklist s data id now) e.entryId =
              getRecord s e.entryId := by
            calc getRecord (createChecklist s data id now) e.entryId
                = getRecord (setRecord
                    { s with index := s.index ++ [.full (mkNewChecklist data id now)] }
                    id (mkNewChecklist data id now)) e.entryId := rfl
              _ = getRecord
                    { s with index := s.index ++ [.full (mkNewChecklist data id now)] }
                    e.entryId := getRecord_setRecord_other _ _ _ _ hne
              _ = getRecord s e.entryId := rfl
          rw [entryOkB_congr s (createChecklist s data id now) e hrec_eq]
          exact ihe e he'
        · have heq : e = .full (mkNewChecklist data id now) := by simpa using he'
          rw [heq]
          simp only [entryOkB, beq_iff_eq]
          exact getRecord_setRecord_self _ _ _
      · intro p hp
        rcases mem_setPairs _ _ _ _ hp with h1 | h1
        · rw [h1]; rfl
        · exact ihr p h1
  | save s id c u now hr hrec hid ih =>
      obtain ⟨ihn, ihe, ihr⟩ := ih
      have hcid : c.id = id := ihr (id, c) (getRecord_mem s id c hrec)
      have huid : (saveApply u now).id = id := by simp [saveApply, hid, hcid]
      cases hm : updateIndexEntries id (projOf (saveApply u now)) s.index with
      | none =>
          have hall := (updateIndexEntries_none_iff _ _ _).mp hm
          have hsave : saveChecklist s id u now = setRecord s id (saveApply u now) := by
            simp only [saveChecklist, setRecord, hm]
          rw [hsave]
          refine ⟨ihn, ?_, ?_⟩
          · intro e he
            have hne := hall e he
            have hrec_eq : getRecord (setRecord s id (saveApply u now)) e.entryId =
                getRecord s e.entryId := getRecord_setRecord_other _ _ _ _ hne
            rw [entryOkB_congr s _ e hrec_eq]
            exact ihe e he
          · intro p hp
            rcases mem_setPairs _ _ _ _ hp with h1 | h1
            · rw [h1]; exact huid
            · exact ihr p h1
      | some entries =>
          obtain ⟨pre, e0, post, hsplit, hid0, hpre, hres⟩ :=
            updateIndexEntries_decomp _ _ _ _ hm
          have hsave : saveChecklist s id u now =
              { setRecord s id (saveApply u now) with index := entries } := by
            simp only [saveChecklist, setRecord, hm]
          rw [hsave]
          have hprojid : (projOf (saveApply u now)).id = id := huid
          have hmap : entries.map IndexEntry.entryId =
              s.index.map IndexEntry.entryId := by
            rw [hres, hsplit, List.map_append, List.map_append, List.map_cons,
              List.map_cons]
            have h1 : IndexEntry.entryId
                (IndexEntry.summary (projOf (saveApply u now))) = id := hprojid
            rw [h1, hid0]
          have hpost : ∀ x ∈ post, x.entryId ≠ id := by
            intro x hx hxid
            have hnodup := ihn
            rw [hsplit, List.map_append, List.map_cons] at hnodup
            have := (List.nodup_append.mp hnodup).2.1
            rw [List.nodup_cons] at this
            exact this.1 (hid0.symm ▸ hxid ▸ List.mem_map.mpr ⟨x, hx, rfl⟩)
          refine ⟨?_, ?_, ?_⟩
          · show (entries.map IndexEntry.entryId).Nodup
            rw [hmap]; exact ihn
          · intro e he
            have he2 : e ∈ entries := he
            rw [hres] at he2
            rcases List.mem_append.mp he2 with he' | he'
            · have hne := hpre e he'
              have hrec_eq : getRecord
                  { setRecord s id (saveApply u now) with index := entries }
                  e.entryId = getRecord s e.entryId := by
                calc getRecord { setRecord s id (saveApply u now) with
                      index := entries } e.entryId
                    = getRecord (setRecord s id (saveApply u now)) e.entryId := rfl
                  _ = getRecord s e.entryId := getRecord_setRecord_other _ _ _ _ hne
              rw [entryOkB_congr s _ e hrec_eq]
              exact ihe e (by rw [hsplit]; exact List.mem_append_left _ he')
            · rcases List.mem_cons.mp he' with heq | he''
              · rw [heq]
                simp only [entryOkB]
                have hg : getRecord
                    { setRecord s id (saveApply u now) with index := entries }
                    (projOf (saveApply u now)).id = some (saveApply u now) := by
                  rw [hprojid]
                  exact getRecord_setRecord_self _ _ _
                rw [hg]
                simp
              · have hne := hpost e he''
                have hrec_eq : getRecord
                    { setRecord s id (saveApply u now) with index := entries }
                    e.entryId = getRecord s e.entryId := by
                  calc getRecord { setRecord s id (saveApply u now) with
                        index := entries } e.entryId
                      = getRecord (setRecord s id (saveApply u now)) e.entryId := rfl
                    _ = getRecord s e.entryId := getRecord_setRecord_other _ _ _ _ hne
                rw [entryOkB_congr s _ e hrec_eq]
                refine ihe e ?_
                rw [hsplit]
                exact List.mem_append_right _ (List.mem_cons_of_mem _ he'')
          · intro p hp
            rcases mem_setPairs _ _ _ _ hp with h1 | h1
            · rw [h1]; exact huid
            · exact ihr p h1
  | delete s id hr ih =>
      obtain ⟨ihn, ihe, ihr⟩ := ih
      refine ⟨?_, ?_, ?_⟩
      · show (((s.index.filter (fun e => e.entryId != id)).map
          IndexEntry.entryId)).Nodup
        exact List.Nodup.sublist (List.Sublist.map _ (List.filter_sublist _)) ihn
      · intro e he
        have he' := List.mem_of_mem_filter he
        have : entryOkB (deleteChecklist s id) e = entryOkB s e := rfl
        rw [this]
        exact ihe e he'
      · intro p hp
        exact ihr p hp

/-- Claim C3 counterexample: in the reachable store obtained by creating the
sample checklist in the empty store, the single index entry is the full
record — including its (empty) item lists and photo list — not a
`ChecklistSummary` projection, so the claim as stated is false at this
input. -/
theorem create_pushes_full_record_cex :
    (createChecklist ⟨[], []⟩ sampleData "1" "t0").index =
      [IndexEntry.full sampleChecklist] ∧
    isSummaryEntry (IndexEntry.full sampleChecklist) = false := by
  refine ⟨by decide, rfl⟩

/-- Claim C3 (amended): in every state reachable by create/update/delete,
the ids of the index entries are pairwise distinct, and every index entry
corresponds to an existing stored record, being either that full record
itself — the shape appended by create — or its `ChecklistSummary`
projection `{id, title, vehicle_info, created_at, updated_at}` — the shape
written by update.  Create appends the full record, not the projection, and
since delete leaves the full record stored, a record may exist with no
index entry. -/
theorem index_entries_unique_and_shaped (s : Store) (h : Reachable s) :
    (s.index.map IndexEntry.entryId).Nodup ∧
    ∀ e ∈ s.index, ∃ c, getRecord s e.entryId = some c ∧
      (e = IndexEntry.full c ∨ e = IndexEntry.summary (projOf c)) := by
  obtain ⟨h1, h2, -⟩ := reachable_storeInv s h
  refine ⟨h1, ?_⟩
  intro e he
  have hok := h2 e he
  cases e with
  | full c =>
      refine ⟨c, ?_, Or.inl rfl⟩
      simpa only [entryOkB, beq_iff_eq] using hok
  | summary sm =>
      simp only [entryOkB] at hok
      cases hg : getRecord s sm.id with
      | none => rw [hg] at hok; simp at hok
      | some c =>
          rw [hg] at hok
          simp only [beq_iff_eq] at hok
          exact ⟨c, hg, Or.inr (by rw [hok])⟩

/-- Concrete instance of the amended C3 theorem, at the reachable store
holding the freshly created sample checklist. -/
theorem index_entries_unique_and_shaped_witness :
    ((createChecklist ⟨[], []⟩ sampleData "1" "t0").index.map
      IndexEntry.entryId).Nodup ∧
    ∀ e ∈ (createChecklist ⟨[], []⟩ sampleData "1" "t0").index,
      ∃ c, getRecord (createChecklist ⟨[], []⟩ sampleData "1" "t0") e.entryId =
          some c ∧
        (e = IndexEntry.full c ∨ e = IndexEntry.summary (projOf c)) :=
  index_entries_unique_and_shaped (createChecklist ⟨[], []⟩ sampleData "1" "t0")
    (Reachable.create ⟨[], []⟩ sampleData "1" "t0" Reachable.empty rfl)
